import Mathlib

/-!
Verification development for the biomorph generation-and-selection engine
(`src/routes` biomorph simulation, full desktop variant and reduced mobile
variant).  Genes are modelled as integers, fractional drawing parameters and
fitness values as rationals, and the opaque string UUIDs as natural-number
identifiers supplied by an abstract fresh-id stream.  Trigonometric functions
appear only through abstract function parameters `cosD`/`sinD` (cosine/sine of
an angle given in degrees), since every property of interest is independent of
their concrete values.
-/

namespace EvolViz

/-- The `Biomorph` record: 9 integer genes plus identity/lineage/fitness
metadata.  `id` abstracts the string UUID, `timestamp` the `Date.now()`
value. -/
structure Biomorph where
  id : Nat
  genes : List Int
  generation : Nat
  parent : Option Nat := none
  fitness : Option Rat := none
  timestamp : Option Nat := none
deriving DecidableEq, Repr

instance : Inhabited Biomorph := ⟨⟨0, [], 0, none, none, none⟩⟩

/-- Fitness with the JavaScript coalescing default: `b.fitness || 0`, as
used by the sort comparator. -/
def fitnessVal (b : Biomorph) : Rat := b.fitness.getD 0

/-- The full variant's `calculateFitness(genes, fitnessType)`: switch on the
policy name with `"balanced"` as the default branch, final `Math.max(0, _)`. -/
def calculateFitness (genes : List Int) (fitnessType : String) : Rat :=
  max 0
    (if fitnessType = "complex" then
      ((genes.getD 3 0 : Int) : Rat) * 2 + ((genes.getD 8 0 : Int) : Rat) * 1.5 +
        (10 - |((genes.getD 1 0 : Int) : Rat) - 5|) +
        (10 - |((genes.getD 4 0 : Int) : Rat) - 5|)
    else if fitnessType = "symmetric" then
      (10 - |((genes.getD 5 0 : Int) : Rat)|) * 2 +
        (10 - |((genes.getD 7 0 : Int) : Rat)|) * 1.5 +
        (10 - |((genes.getD 0 0 : Int) : Rat) - 5|)
    else
      |((genes.getD 3 0 : Int) : Rat)| + |((genes.getD 1 0 : Int) : Rat)| / 2 +
        (10 - |((genes.getD 5 0 : Int) : Rat)|) +
        |((genes.getD 8 0 : Int) : Rat)| / 2)

/-- The reduced (mobile) variant's `calculateFitness(genes)`: the balanced
formula only. -/
def calculateFitnessReduced (genes : List Int) : Rat :=
  max 0
    (|((genes.getD 3 0 : Int) : Rat)| + |((genes.getD 1 0 : Int) : Rat)| / 2 +
      (10 - |((genes.getD 5 0 : Int) : Rat)|) +
      |((genes.getD 8 0 : Int) : Rat)| / 2)

/-- The `+1` mutation of gene `k`: increment only when strictly below the
ceiling `10` (increment at the ceiling is a no-op). -/
def mutUp (genes : List Int) (k : Nat) : List Int :=
  if genes.getD k 0 < 10 then genes.set k (genes.getD k 0 + 1) else genes

/-- The `-1` mutation of gene `k`: decrement only when strictly above the
floor `-10`. -/
def mutDown (genes : List Int) (k : Nat) : List Int :=
  if -10 < genes.getD k 0 then genes.set k (genes.getD k 0 - 1) else genes

/-- The full variant's `createOffspring(parent)`: for each gene index
`0..8` in ascending order, push the `+1` child then the `-1` child.  `policy`
is the ambient `fitnessFunction` state, `ids` the fresh-UUID stream and `now`
the `Date.now()` value. -/
def createOffspring (policy : String) (ids : Nat → Nat) (now : Nat)
    (parent : Biomorph) : List Biomorph :=
  (List.range 9).flatMap fun k =>
    [ { id := ids (2 * k), genes := mutUp parent.genes k,
        generation := parent.generation + 1, parent := some parent.id,
        fitness := some (calculateFitness (mutUp parent.genes k) policy),
        timestamp := some now },
      { id := ids (2 * k + 1), genes := mutDown parent.genes k,
        generation := parent.generation + 1, parent := some parent.id,
        fitness := some (calculateFitness (mutDown parent.genes k) policy),
        timestamp := some now } ]

/-- The reduced variant's `createOffspring(parent)`: only the four most
visible genes `[0, 1, 2, 3]` are mutated; no timestamp is recorded. -/
def createOffspringReduced (ids : Nat → Nat) (parent : Biomorph) :
    List Biomorph :=
  ([0, 1, 2, 3] : List Nat).flatMap fun k =>
    [ { id := ids (2 * k), genes := mutUp parent.genes k,
        generation := parent.generation + 1, parent := some parent.id,
        fitness := some (calculateFitnessReduced (mutUp parent.genes k)) },
      { id := ids (2 * k + 1), genes := mutDown parent.genes k,
        generation := parent.generation + 1, parent := some parent.id,
        fitness := some (calculateFitnessReduced (mutDown parent.genes k)) } ]

/-- The first offspring of the full batch: the `+1` mutation of gene 0. -/
def upChild0 (policy : String) (ids : Nat → Nat) (now : Nat)
    (parent : Biomorph) : Biomorph :=
  { id := ids 0, genes := mutUp parent.genes 0,
    generation := parent.generation + 1, parent := some parent.id,
    fitness := some (calculateFitness (mutUp parent.genes 0) policy),
    timestamp := some now }

/-- The first offspring of the reduced batch: the `+1` mutation of gene 0. -/
def upChild0R (ids : Nat → Nat) (parent : Biomorph) : Biomorph :=
  { id := ids 0, genes := mutUp parent.genes 0,
    generation := parent.generation + 1, parent := some parent.id,
    fitness := some (calculateFitnessReduced (mutUp parent.genes 0)) }

/-- The comparator `(a, b) => (b.fitness || 0) - (a.fitness || 0)`: `a` sorts
no later than `b` exactly when `a`'s fitness is at least `b`'s. -/
def fitGE (a b : Biomorph) : Prop := fitnessVal b ≤ fitnessVal a

instance : DecidableRel fitGE := fun a b =>
  inferInstanceAs (Decidable (fitnessVal b ≤ fitnessVal a))

/-- The sort `[...offspring].sort((a, b) => (b.fitness || 0) - (a.fitness || 0))`:
JavaScript `Array.prototype.sort` is a stable sort, modelled by the stable
`insertionSort`. -/
def sortFitDesc (l : List Biomorph) : List Biomorph := l.insertionSort fitGE

/-- One auto-evolution step of the full variant: breed the 18 offspring of
the current individual and keep `sorted[0]`, the fittest one. -/
def stepFull (ids : Nat → Nat) (now : Nat) (cur : Biomorph) : Biomorph :=
  (sortFitDesc (createOffspring "balanced" ids now cur)).headI

/-- One auto-evolution step of the reduced variant. -/
def stepReduced (ids : Nat → Nat) (cur : Biomorph) : Biomorph :=
  (sortFitDesc (createOffspringReduced ids cur)).headI

/-- Runs `n` consecutive auto-evolution steps of the full variant; `idsSeq n` and
`nowSeq n` are the fresh ids and timestamp used by the `n`-th step. -/
def evolveFull (idsSeq : Nat → Nat → Nat) (nowSeq : Nat → Nat)
    (start : Biomorph) : Nat → Biomorph
  | 0 => start
  | n + 1 => stepFull (idsSeq n) (nowSeq n) (evolveFull idsSeq nowSeq start n)

/-- Runs `n` consecutive auto-evolution steps of the reduced variant. -/
def evolveReduced (idsSeq : Nat → Nat → Nat) (start : Biomorph) :
    Nat → Biomorph
  | 0 => start
  | n + 1 => stepReduced (idsSeq n) (evolveReduced idsSeq start n)

/-- The recursive history walk `findLineage`, with an explicit fuel counter
making the unbounded recursion of the source total: `none` means the
recursion has not produced a result within `fuel` visited individuals. -/
def findLineageFuel : Nat → List Biomorph → Biomorph → Option (List Biomorph)
  | 0, _, _ => none
  | fuel + 1, history, b =>
    match b.parent with
    | none => some [b]
    | some pid =>
      match history.find? (fun x => x.id == pid) with
      | none => some [b]
      | some p => (findLineageFuel fuel history p).map fun l => l ++ [b]

/-- The history update of `selectBiomorph`: `setHistory(prev => [...prev, b])`,
with no truncation (both variants). -/
def selectHistoryUpdate (prev : List Biomorph) (b : Biomorph) :
    List Biomorph := prev ++ [b]

/-- The history update of `runAutoEvolutionStep` in the full variant: append, then
keep only the most recent 1000 entries (`slice(-1000)`). -/
def autoHistoryUpdateFull (prev : List Biomorph) (b : Biomorph) :
    List Biomorph :=
  let newHistory := prev ++ [b]
  if 1000 < newHistory.length then
    newHistory.drop (newHistory.length - 1000)
  else newHistory

/-- The history update of `runAutoEvolutionStep` in the reduced variant: append,
then keep only the most recent 100 entries (`slice(-100)`). -/
def autoHistoryUpdateReduced (prev : List Biomorph) (b : Biomorph) :
    List Biomorph :=
  let newHistory := prev ++ [b]
  if 100 < newHistory.length then
    newHistory.drop (newHistory.length - 100)
  else newHistory

/-- The helper `mapValue(value, fromMin, fromMax, toMin, toMax)`: linear interpolation
from one range to another (no clamping). -/
def mapValue (value fromMin fromMax toMin toMax : Rat) : Rat :=
  toMin + ((value - fromMin) / (fromMax - fromMin)) * (toMax - toMin)

/-- The `drawingParams` record computed by `drawBiomorph` from the genes. -/
structure DrawingParams where
  angle : Rat
  length : Rat
  width : Rat
  depth : Int
  decay : Rat
  asymmetry : Rat
  hue : Rat
  curvature : Rat
  splits : Int
deriving DecidableEq, Repr

/-- The genotype-to-parameter mapping of `drawBiomorph`: each gene is fed to
`mapValue` over the domain `[-10, 10]`; `depth` and `splits` are floored and
clamped from below only. -/
def computeDrawingParams (genes : List Int) : DrawingParams :=
  let g : Nat → Rat := fun i => ((genes.getD i 0 : Int) : Rat)
  { angle := mapValue (g 0) (-10) 10 10 60
    length := mapValue (g 1) (-10) 10 5 40
    width := mapValue (g 2) (-10) 10 0.5 5
    depth := max 1 (Int.floor (mapValue (g 3) (-10) 10 1 8))
    decay := mapValue (g 4) (-10) 10 0.5 0.9
    asymmetry := mapValue (g 5) (-10) 10 (-0.5) 0.5
    hue := mapValue (g 6) (-10) 10 0 360
    curvature := mapValue (g 7) (-10) 10 (-30) 30
    splits := max 2 (Int.floor (mapValue (g 8) (-10) 10 2 4)) }

/-- One drawn branch segment, the
`[startX, startY, endX, endY, depth, color, width]` tuple of the source; the
color string `hsl(hue + depth * 10, 70%, (30 + depth * 5)%)` is represented by
its two varying components `hue` and `lightness`. -/
structure Segment where
  x1 : Rat
  y1 : Rat
  x2 : Rat
  y2 : Rat
  depth : Nat
  hue : Rat
  lightness : Rat
  width : Rat
deriving DecidableEq, Repr

/-- One pending branch, the `[x, y, angle, length, depth]` queue entry of
`drawOptimizedBiomorph` (equivalently the changing arguments of
`drawBranch`).  Remaining depth is a natural number: both walks stop at
`depth <= 0` and the initial `params.depth` is at least 1. -/
structure BranchItem where
  x : Rat
  y : Rat
  angle : Rat
  length : Rat
  depth : Nat
deriving DecidableEq, Repr

/-- The clamp `Math.max(2, Math.min(params.splits, 4))`, computed identically in both
walks. -/
def actualSplits (P : DrawingParams) : Nat := (max 2 (min P.splits 4)).toNat

/-- The segment a branch emits: endpoint via degree-cosine/sine, color
components and width derived from the remaining depth. -/
def branchSegment (cosD sinD : Rat → Rat) (P : DrawingParams)
    (it : BranchItem) : Segment :=
  { x1 := it.x, y1 := it.y,
    x2 := it.x + it.length * cosD it.angle,
    y2 := it.y + it.length * sinD it.angle,
    depth := it.depth,
    hue := P.hue + (it.depth : Rat) * 10,
    lightness := 30 + (it.depth : Rat) * 5,
    width := P.width * ((it.depth : Rat) / 5) }

/-- The child branches spawned by a branch: `actualSplits` children, evenly
spread over the full spread angle, pushed apart by asymmetry on alternating
indices, bent by `curvature * (depth / 8)`, with decayed length and
decremented depth.  The same formulas appear verbatim in both
`drawOptimizedBiomorph` and `drawBranch`. -/
def childItems (cosD sinD : Rat → Rat) (P : DrawingParams)
    (it : BranchItem) : List BranchItem :=
  let endX := it.x + it.length * cosD it.angle
  let endY := it.y + it.length * sinD it.angle
  (List.range (actualSplits P)).map fun i =>
    let base := ((i : Rat) / ((actualSplits P : Rat) - 1) - 0.5) * 2 * P.angle
    let branchOffset :=
      if i % 2 = 0 then base + P.asymmetry * P.angle
      else base - P.asymmetry * P.angle
    { x := endX, y := endY,
      angle := it.angle + branchOffset + P.curvature * ((it.depth : Rat) / 8),
      length := it.length * P.decay,
      depth := it.depth - 1 }

/-- The recursive walk of `drawBranch`, structured on the remaining depth
(children of a branch of depth `d + 1` all have depth `d`). -/
def recWalkAux (cosD sinD : Rat → Rat) (P : DrawingParams) :
    Nat → BranchItem → List Segment
  | 0, _ => []
  | d + 1, it =>
    branchSegment cosD sinD P it ::
      (childItems cosD sinD P it).flatMap (recWalkAux cosD sinD P d)

/-- One `drawBranch` call on a single pending branch: emit its segment, then recurse
into its children. -/
def recWalk (cosD sinD : Rat → Rat) (P : DrawingParams) (it : BranchItem) :
    List Segment :=
  recWalkAux cosD sinD P it.depth it

/-- The full recursive rendering: `drawBranch(ctx, startX, startY,
params.length, -90, params.depth, ...)`. -/
def drawBranchSegs (cosD sinD : Rat → Rat) (P : DrawingParams)
    (startX startY : Rat) : List Segment :=
  recWalk cosD sinD P ⟨startX, startY, -90, P.length, P.depth.toNat⟩

/-- Termination measure of the queue loop: a branch of depth `d` accounts for
`5 ^ d`, strictly more than its at most 4 children of depth `d - 1`. -/
def measureQ (q : List BranchItem) : Nat :=
  (q.map fun it => 5 ^ it.depth).sum

/-- The `while (queue.length > 0)` loop of `drawOptimizedBiomorph` with an
explicit fuel counter (structural recursion); called with fuel at least
`measureQ` of the queue, the fuel never runs out. -/
def processQueueN (cosD sinD : Rat → Rat) (P : DrawingParams) :
    Nat → List BranchItem → List Segment
  | 0, _ => []
  | _ + 1, [] => []
  | fuel + 1, it :: rest =>
    if it.depth = 0 then processQueueN cosD sinD P fuel rest
    else
      branchSegment cosD sinD P it ::
        processQueueN cosD sinD P fuel (rest ++ childItems cosD sinD P it)

/-- The queue loop run to completion. -/
def processQueue (cosD sinD : Rat → Rat) (P : DrawingParams)
    (q : List BranchItem) : List Segment :=
  processQueueN cosD sinD P (measureQ q) q

/-- The comparator `(a, b) => a[4] - b[4]` of the final
`branches.sort`: segments are ordered by their remaining-depth field. -/
def segLE (s t : Segment) : Prop := s.depth ≤ t.depth

instance : DecidableRel segLE := fun s t =>
  inferInstanceAs (Decidable (s.depth ≤ t.depth))

instance : IsTotal Segment segLE := ⟨fun s t => Nat.le_total s.depth t.depth⟩

instance : IsTrans Segment segLE := ⟨fun _ _ _ h h2 => Nat.le_trans h h2⟩

/-- The iterative `drawOptimizedBiomorph(ctx, startX, startY, params)`: seed the queue with
the trunk, run the loop, then draw in the order of the stable sort by the
depth field. -/
def drawOptimizedSegs (cosD sinD : Rat → Rat) (P : DrawingParams)
    (startX startY : Rat) : List Segment :=
  (processQueue cosD sinD P
    [⟨startX, startY, -90, P.length, P.depth.toNat⟩]).insertionSort segLE

/-- The distance `geneticDistance(a, b)`: loop `i = 0..8` accumulating
`Math.abs(a.genes[i] - b.genes[i])`. -/
def geneticDistance (a b : Biomorph) : Int :=
  (List.range 9).foldl
    (fun d i => d + |a.genes.getD i 0 - b.genes.getD i 0|) 0

/-! Concrete instantiation data used to evaluate the development on explicit
inputs. -/

/-- A trivial fresh-id stream. -/
def idsZero : Nat → Nat := fun _ => 0

/-- A trivial per-step fresh-id stream. -/
def idsSeqZero : Nat → Nat → Nat := fun _ _ => 0

/-- A trivial timestamp stream. -/
def nowSeqZero : Nat → Nat := fun _ => 0

/-- First node of a two-element parent-reference cycle. -/
def cycA : Biomorph := ⟨0, [], 1, some 1, none, none⟩

/-- Second node of a two-element parent-reference cycle. -/
def cycB : Biomorph := ⟨1, [], 1, some 0, none, none⟩

/-- A history containing a parent-reference cycle. -/
def cycHistory : List Biomorph := [cycA, cycB]

/-- Root of a concrete four-individual ancestry chain. -/
def rootW : Biomorph := ⟨0, [], 0, none, none, none⟩

/-- First descendant of the chain. -/
def aW : Biomorph := ⟨1, [], 1, some 0, none, none⟩

/-- Second descendant of the chain. -/
def bW : Biomorph := ⟨2, [], 2, some 1, none, none⟩

/-- Third descendant of the chain. -/
def cW : Biomorph := ⟨3, [], 3, some 2, none, none⟩

/-- History fully retaining the chain. -/
def histW : List Biomorph := [rootW, aW, bW, cW]

/-- The same history with the root evicted. -/
def histPartial : List Biomorph := [aW, bW, cW]

/-- A concrete in-range parent genotype. -/
def parentW : Biomorph := ⟨7, [10, -10, 0, 5, -3, 2, 0, 9, -9], 4, none, some 0, none⟩

/-- A concrete starting individual for auto-evolution, with its cached
fitness computed under the balanced policy. -/
def startW : Biomorph :=
  ⟨0, List.replicate 9 0, 0, none,
    some (calculateFitness (List.replicate 9 0) "balanced"), none⟩

/-- A gene vector violating the `[-10, 10]` precondition (gene 0 is 20). -/
def gOut : List Int := [20, 0, 0, 0, 0, 0, 0, 0, 0]

/-- An in-range gene vector mapping to depth 2 and 2 splits, giving a small
three-segment phenotype. -/
def genesSmall : List Int := [0, 0, 0, -5, 0, 0, 0, 0, -1]

/-- A concrete degree-cosine used to evaluate the walks. -/
def cosOne : Rat → Rat := fun _ => 1

/-- A concrete degree-sine used to evaluate the walks. -/
def sinZero : Rat → Rat := fun _ => 0

/-- A history already holding 1000 entries. -/
def histFull : List Biomorph := List.replicate 1000 default

/-- The drawing parameters of `genesSmall`, written out. -/
def PSmall : DrawingParams :=
  { angle := 35, length := 45 / 2, width := 11 / 4, depth := 2,
    decay := 7 / 10, asymmetry := 0, hue := 180, curvature := 0, splits := 2 }

/-! ## Theorems -/

/-- Unfolding of `geneticDistance` into the explicit nine-term sum. -/
lemma geneticDistance_expand (a b : Biomorph) :
    geneticDistance a b =
      |a.genes.getD 0 0 - b.genes.getD 0 0| +
      |a.genes.getD 1 0 - b.genes.getD 1 0| +
      |a.genes.getD 2 0 - b.genes.getD 2 0| +
      |a.genes.getD 3 0 - b.genes.getD 3 0| +
      |a.genes.getD 4 0 - b.genes.getD 4 0| +
      |a.genes.getD 5 0 - b.genes.getD 5 0| +
      |a.genes.getD 6 0 - b.genes.getD 6 0| +
      |a.genes.getD 7 0 - b.genes.getD 7 0| +
      |a.genes.getD 8 0 - b.genes.getD 8 0| := by
  have hr : List.range 9 = [0, 1, 2, 3, 4, 5, 6, 7, 8] := rfl
  simp only [geneticDistance, hr, List.foldl, zero_add]

/-- C10: `geneticDistance(a, b)` is the sum over the 9 gene indices of the
absolute differences of the corresponding genes; consequently it is
symmetric, non-negative, and zero when both arguments coincide. -/
theorem geneticDistance_spec (a b : Biomorph) :
    geneticDistance a b =
      |a.genes.getD 0 0 - b.genes.getD 0 0| +
      |a.genes.getD 1 0 - b.genes.getD 1 0| +
      |a.genes.getD 2 0 - b.genes.getD 2 0| +
      |a.genes.getD 3 0 - b.genes.getD 3 0| +
      |a.genes.getD 4 0 - b.genes.getD 4 0| +
      |a.genes.getD 5 0 - b.genes.getD 5 0| +
      |a.genes.getD 6 0 - b.genes.getD 6 0| +
      |a.genes.getD 7 0 - b.genes.getD 7 0| +
      |a.genes.getD 8 0 - b.genes.getD 8 0| ∧
    geneticDistance a b = geneticDistance b a ∧
    0 ≤ geneticDistance a b ∧
    geneticDistance a a = 0 := by
  refine ⟨geneticDistance_expand a b, ?_, ?_, ?_⟩
  · rw [geneticDistance_expand a b, geneticDistance_expand b a]
    simp only [abs_sub_comm]
  · rw [geneticDistance_expand a b]
    positivity
  · rw [geneticDistance_expand a a]
    simp

/-- C9 counterexample: appending via `selectBiomorph` to a history that
already holds 1000 entries yields 1001 entries — the manual-selection path
never truncates, so the claimed global bound of 1000 fails. -/
theorem selectHistory_exceeds_bound :
    (selectHistoryUpdate histFull default).length = 1001 ∧
    1000 < (selectHistoryUpdate histFull default).length := by
  have h : (selectHistoryUpdate histFull default).length = 1001 := by
    simp only [selectHistoryUpdate, histFull, List.length_append,
      List.length_replicate, List.length_singleton]
  exact ⟨h, by omega⟩

/-- C9 amended: the auto-evolution history updates are bounded (at most 1000
entries in the full mode, at most 100 in the reduced mode) and drop only the
oldest entries (the result is a suffix of the appended list), while the
manual-selection update appends one entry with no truncation at all. -/
theorem historyUpdate_bounds (prev : List Biomorph) (b : Biomorph) :
    (autoHistoryUpdateFull prev b).length ≤ 1000 ∧
    (autoHistoryUpdateReduced prev b).length ≤ 100 ∧
    (autoHistoryUpdateFull prev b).IsSuffix (prev ++ [b]) ∧
    (autoHistoryUpdateReduced prev b).IsSuffix (prev ++ [b]) ∧
    (selectHistoryUpdate prev b).length = prev.length + 1 := by
  refine ⟨?_, ?_, ?_, ?_, by simp [selectHistoryUpdate]⟩
  · simp only [autoHistoryUpdateFull]
    split
    · simp only [List.length_drop]
      omega
    · omega
  · simp only [autoHistoryUpdateReduced]
    split
    · simp only [List.length_drop]
      omega
    · omega
  · simp only [autoHistoryUpdateFull]
    split
    · exact List.drop_suffix _ _
    · exact List.suffix_refl _
  · simp only [autoHistoryUpdateReduced]
    split
    · exact List.drop_suffix _ _
    · exact List.suffix_refl _

/-- C8 counterexample: the phenotype generator does not clamp out-of-range
genes; a gene-0 value of 20 maps to a branch angle of 85 degrees, outside
the documented 10–60 range. -/
theorem drawingParams_not_clamped :
    (computeDrawingParams gOut).angle = 85 ∧
    ¬ (computeDrawingParams gOut).angle ≤ 60 := by
  constructor <;> simp only [computeDrawingParams, gOut, mapValue] <;> norm_num

/-- Interpolation over the gene domain `[-10, 10]` stays within the target
range. -/
lemma mapValue_bounds {v lo hi : Rat} (hlo : lo ≤ hi) (h1 : -10 ≤ v)
    (h2 : v ≤ 10) :
    lo ≤ mapValue v (-10) 10 lo hi ∧ mapValue v (-10) 10 lo hi ≤ hi := by
  have key : mapValue v (-10) 10 lo hi = lo + (v + 10) * (hi - lo) / 20 := by
    unfold mapValue
    ring
  rw [key]
  constructor
  · nlinarith [mul_nonneg (show (0 : Rat) ≤ v + 10 by linarith)
      (show (0 : Rat) ≤ hi - lo by linarith)]
  · nlinarith [mul_nonneg (show (0 : Rat) ≤ 10 - v by linarith)
      (show (0 : Rat) ≤ hi - lo by linarith)]

/-- Reading `getD` of a gene list whose members are within bounds is within bounds
(the default 0 also is). -/
lemma getD_bounds {genes : List Int}
    (h : ∀ g ∈ genes, -10 ≤ g ∧ g ≤ 10) (i : Nat) :
    -10 ≤ genes.getD i 0 ∧ genes.getD i 0 ≤ 10 := by
  rcases lt_or_ge i genes.length with hi | hi
  · rw [List.getD_eq_getElem genes 0 hi]
    exact h _ (List.getElem_mem hi)
  · rw [List.getD_eq_default genes 0 hi]
    norm_num

/-- C8 amended: the generator performs no defensive clamping of the genes,
but for every genotype whose genes lie in `[-10, 10]` each produced drawing
parameter lies within its documented output range. -/
theorem drawingParams_in_range (genes : List Int)
    (h : ∀ g ∈ genes, -10 ≤ g ∧ g ≤ 10) :
    (10 ≤ (computeDrawingParams genes).angle ∧
      (computeDrawingParams genes).angle ≤ 60) ∧
    (5 ≤ (computeDrawingParams genes).length ∧
      (computeDrawingParams genes).length ≤ 40) ∧
    (0.5 ≤ (computeDrawingParams genes).width ∧
      (computeDrawingParams genes).width ≤ 5) ∧
    (1 ≤ (computeDrawingParams genes).depth ∧
      (computeDrawingParams genes).depth ≤ 8) ∧
    (0.5 ≤ (computeDrawingParams genes).decay ∧
      (computeDrawingParams genes).decay ≤ 0.9) ∧
    (-0.5 ≤ (computeDrawingParams genes).asymmetry ∧
      (computeDrawingParams genes).asymmetry ≤ 0.5) ∧
    (0 ≤ (computeDrawingParams genes).hue ∧
      (computeDrawingParams genes).hue ≤ 360) ∧
    (-30 ≤ (computeDrawingParams genes).curvature ∧
      (computeDrawingParams genes).curvature ≤ 30) ∧
    (2 ≤ (computeDrawingParams genes).splits ∧
      (computeDrawingParams genes).splits ≤ 4) := by
  have hv : ∀ i : Nat, -10 ≤ ((genes.getD i 0 : Int) : Rat) ∧
      ((genes.getD i 0 : Int) : Rat) ≤ 10 := by
    intro i
    obtain ⟨h1, h2⟩ := getD_bounds h i
    constructor <;> exact_mod_cast ‹_›
  have hfloor : ∀ (q : Rat) (n : Int), q ≤ (n : Rat) → Int.floor q ≤ n := by
    intro q n hq
    have h1 : (Int.floor q : Rat) ≤ q := Int.floor_le q
    exact_mod_cast h1.trans hq
  simp only [computeDrawingParams]
  refine ⟨mapValue_bounds (by norm_num) (hv 0).1 (hv 0).2,
    mapValue_bounds (by norm_num) (hv 1).1 (hv 1).2,
    mapValue_bounds (by norm_num) (hv 2).1 (hv 2).2,
    ⟨le_max_left _ _, ?_⟩,
    mapValue_bounds (by norm_num) (hv 4).1 (hv 4).2,
    mapValue_bounds (by norm_num) (hv 5).1 (hv 5).2,
    mapValue_bounds (by norm_num) (hv 6).1 (hv 6).2,
    mapValue_bounds (by norm_num) (hv 7).1 (hv 7).2,
    ⟨le_max_left _ _, ?_⟩⟩
  · have hb := (mapValue_bounds (show (1 : Rat) ≤ 8 by norm_num)
      (hv 3).1 (hv 3).2).2
    have := hfloor _ 8 hb
    omega
  · have hb := (mapValue_bounds (show (2 : Rat) ≤ 4 by norm_num)
      (hv 8).1 (hv 8).2).2
    have := hfloor _ 4 hb
    omega

/-- C8 amended, evaluated: the all-zero genotype satisfies the gene-range
hypothesis and its mapped angle indeed lies in the documented range. -/
theorem drawingParams_in_range_witness :
    (∀ g ∈ (List.replicate 9 (0 : Int)), -10 ≤ g ∧ g ≤ 10) ∧
    10 ≤ (computeDrawingParams (List.replicate 9 0)).angle ∧
    (computeDrawingParams (List.replicate 9 0)).angle ≤ 60 :=
  ⟨by decide, (drawingParams_in_range _ (by decide)).1⟩

/-- Setting gene `i` leaves every other position unchanged. -/
lemma getD_set_ne (l : List Int) (i j : Nat) (a : Int) (hij : i ≠ j) :
    (l.set i a).getD j 0 = l.getD j 0 := by
  simp [List.getD_eq_getElem?_getD, List.getElem?_set_ne hij]

/-- Setting gene `i` (in bounds) stores the new value at position `i`. -/
lemma getD_set_self (l : List Int) (i : Nat) (a : Int) (hi : i < l.length) :
    (l.set i a).getD i 0 = a := by
  simp [List.getD_eq_getElem?_getD, List.getElem?_set_self hi]

/-- The `+1` mutation either increments gene `k` by exactly one leaving all
other genes unchanged, or (only when gene `k` is already at the ceiling 10)
is a no-op. -/
lemma mutUp_spec (genes : List Int) (k : Nat) (hk : k < genes.length)
    (hb : genes.getD k 0 ≤ 10) :
    ((mutUp genes k).getD k 0 = genes.getD k 0 + 1 ∧
      ∀ j, j ≠ k → (mutUp genes k).getD j 0 = genes.getD j 0) ∨
    (genes.getD k 0 = 10 ∧ mutUp genes k = genes) := by
  unfold mutUp
  split
  · exact Or.inl ⟨getD_set_self genes k _ hk,
      fun j hj => getD_set_ne genes k j _ (Ne.symm hj)⟩
  · exact Or.inr ⟨by omega, rfl⟩

/-- The `-1` mutation either decrements gene `k` by exactly one leaving all
other genes unchanged, or (only when gene `k` is already at the floor -10)
is a no-op. -/
lemma mutDown_spec (genes : List Int) (k : Nat) (hk : k < genes.length)
    (hb : -10 ≤ genes.getD k 0) :
    ((mutDown genes k).getD k 0 = genes.getD k 0 - 1 ∧
      ∀ j, j ≠ k → (mutDown genes k).getD j 0 = genes.getD j 0) ∨
    (genes.getD k 0 = -10 ∧ mutDown genes k = genes) := by
  unfold mutDown
  split
  · exact Or.inl ⟨getD_set_self genes k _ hk,
      fun j hj => getD_set_ne genes k j _ (Ne.symm hj)⟩
  · exact Or.inr ⟨by omega, rfl⟩

/-- C1: in full mode `createOffspring(parent)` returns exactly 18 offspring
in deterministic order — gene index 0..8 ascending, the `+1` child before
the `-1` child of each gene (the gene-vector map equation below); every
offspring carries `generation = parent.generation + 1` and
`parent = parent.id`; and each mutation changes exactly one gene by exactly
one, degenerating to the parent's vector only at the corresponding bound. -/
theorem createOffspring_full_spec (policy : String) (ids : Nat → Nat)
    (now : Nat) (parent : Biomorph) (hlen : parent.genes.length = 9)
    (hb : ∀ g ∈ parent.genes, -10 ≤ g ∧ g ≤ 10) :
    (createOffspring policy ids now parent).length = 18 ∧
    (createOffspring policy ids now parent).map Biomorph.genes =
      (List.range 9).flatMap
        (fun k => [mutUp parent.genes k, mutDown parent.genes k]) ∧
    (∀ c ∈ createOffspring policy ids now parent,
      c.generation = parent.generation + 1 ∧ c.parent = some parent.id) ∧
    (∀ k, k < 9 →
      (((mutUp parent.genes k).getD k 0 = parent.genes.getD k 0 + 1 ∧
        ∀ j, j ≠ k →
          (mutUp parent.genes k).getD j 0 = parent.genes.getD j 0) ∨
       (parent.genes.getD k 0 = 10 ∧ mutUp parent.genes k = parent.genes)) ∧
      (((mutDown parent.genes k).getD k 0 = parent.genes.getD k 0 - 1 ∧
        ∀ j, j ≠ k →
          (mutDown parent.genes k).getD j 0 = parent.genes.getD j 0) ∨
       (parent.genes.getD k 0 = -10 ∧
         mutDown parent.genes k = parent.genes))) := by
  refine ⟨?_, ?_, ?_, ?_⟩
  · have hr : List.range 9 = [0, 1, 2, 3, 4, 5, 6, 7, 8] := rfl
    simp [createOffspring, hr]
  · simp [createOffspring, List.map_flatMap]
  · intro c hc
    simp only [createOffspring, List.mem_flatMap, List.mem_cons,
      List.not_mem_nil, or_false] at hc
    obtain ⟨k, _, hck⟩ := hc
    rcases hck with h | h <;> subst h <;> exact ⟨rfl, rfl⟩
  · intro k hk
    have hk' : k < parent.genes.length := by omega
    have hbk := getD_bounds hb k
    exact ⟨mutUp_spec parent.genes k hk' hbk.2,
      mutDown_spec parent.genes k hk' hbk.1⟩

/-- C1, evaluated: a concrete in-range parent satisfies the hypotheses and
its full offspring batch indeed has 18 members. -/
theorem createOffspring_full_spec_witness :
    parentW.genes.length = 9 ∧ (∀ g ∈ parentW.genes, -10 ≤ g ∧ g ≤ 10) ∧
    (createOffspring "balanced" idsZero 0 parentW).length = 18 :=
  ⟨by decide, by decide,
    (createOffspring_full_spec "balanced" idsZero 0 parentW (by decide)
      (by decide)).1⟩

/-- Unfolding of one visit of the history walk. -/
lemma findLineageFuel_succ (fuel : Nat) (hist : List Biomorph)
    (b : Biomorph) :
    findLineageFuel (fuel + 1) hist b =
      match b.parent with
      | none => some [b]
      | some pid =>
        match hist.find? (fun x => x.id == pid) with
        | none => some [b]
        | some p => (findLineageFuel fuel hist p).map fun l => l ++ [b] :=
  rfl

/-- A result reached within some fuel is preserved by any larger fuel. -/
lemma findLineageFuel_mono : ∀ (n m : Nat) (hist : List Biomorph)
    (b : Biomorph) (r : List Biomorph), n ≤ m →
    findLineageFuel n hist b = some r → findLineageFuel m hist b = some r := by
  intro n
  induction n with
  | zero => intro m hist b r _ hs; simp [findLineageFuel] at hs
  | succ n ih =>
    intro m hist b r hnm hs
    obtain ⟨m', rfl⟩ : ∃ m', m = m' + 1 := ⟨m - 1, by omega⟩
    rw [findLineageFuel_succ] at hs ⊢
    cases hp : b.parent with
    | none => rw [hp] at hs; exact hs
    | some pid =>
      rw [hp] at hs
      simp only [] at hs ⊢
      cases hf : hist.find? (fun x => x.id == pid) with
      | none => simp only [hf] at hs ⊢; exact hs
      | some p =>
        simp only [hf] at hs ⊢
        obtain ⟨l, hl, hr⟩ := Option.map_eq_some'.mp hs
        rw [ih m' hist p l (by omega) hl]
        exact congrArg some hr

/-- On the two-element cyclic history the walk never produces a result, no
matter the fuel. -/
lemma findLineageFuel_cyc_none :
    ∀ n, findLineageFuel n cycHistory cycA = none ∧
      findLineageFuel n cycHistory cycB = none := by
  intro n
  induction n with
  | zero => exact ⟨rfl, rfl⟩
  | succ n ih =>
    have hfA : cycHistory.find? (fun x => x.id == cycB.id) = some cycB := rfl
    have hfB : cycHistory.find? (fun x => x.id == cycA.id) = some cycA := rfl
    constructor
    · rw [findLineageFuel_succ]
      show (match cycHistory.find? (fun x => x.id == 1) with
        | none => some [cycA]
        | some p => (findLineageFuel n cycHistory p).map
            fun l => l ++ [cycA]) = none
      rw [show cycHistory.find? (fun x => x.id == 1) = some cycB from rfl]
      simp [ih.2]
    · rw [findLineageFuel_succ]
      show (match cycHistory.find? (fun x => x.id == 0) with
        | none => some [cycB]
        | some p => (findLineageFuel n cycHistory p).map
            fun l => l ++ [cycB]) = none
      rw [show cycHistory.find? (fun x => x.id == 0) = some cycA from rfl]
      simp [ih.1]

/-- C5 counterexample: on a history containing a parent-reference cycle,
`findLineage` has no defensive bound — started at a cycle member of
generation 1 it has produced no result after `generation + 1` visits, nor
after 1000 visits: the recursion does not terminate. -/
theorem findLineage_cycle_diverges :
    findLineageFuel (cycA.generation + 1) cycHistory cycA = none ∧
    findLineageFuel 1000 cycHistory cycA = none :=
  ⟨(findLineageFuel_cyc_none _).1, (findLineageFuel_cyc_none 1000).1⟩

/-- C5 amended: `findLineage(individual)` visits at most
`individual.generation + 1` individuals before returning, provided
generation strictly decreases along every parent link resolved in the
history (in particular the history is cycle-free); on a cyclic history the
unguarded recursion diverges. -/
theorem findLineage_terminates (hist : List Biomorph) (b : Biomorph)
    (hh : ∀ x ∈ hist, ∀ p ∈ hist, x.parent = some p.id →
      p.generation < x.generation)
    (hb : ∀ p ∈ hist, b.parent = some p.id → p.generation < b.generation) :
    (findLineageFuel (b.generation + 1) hist b).isSome := by
  suffices h : ∀ g (x : Biomorph), x.generation = g →
      (∀ p ∈ hist, x.parent = some p.id → p.generation < x.generation) →
      (findLineageFuel (x.generation + 1) hist x).isSome from h _ b rfl hb
  intro g
  induction g using Nat.strong_induction_on with
  | _ g ih =>
    intro x hxg hxp
    rw [findLineageFuel_succ]
    cases hp : x.parent with
    | none => simp
    | some pid =>
      cases hf : hist.find? (fun x => x.id == pid) with
      | none => simp [hf]
      | some p =>
        have hpm : p ∈ hist := List.mem_of_find?_eq_some hf
        have hpid : p.id = pid := by simpa using List.find?_some hf
        have hlt : p.generation < x.generation :=
          hxp p hpm (by rw [hp, hpid])
        have ihp := ih p.generation (by omega) p rfl
          (fun q hq hpq => hh p hpm q hq hpq)
        obtain ⟨l, hl⟩ := Option.isSome_iff_exists.mp ihp
        have hl' : findLineageFuel x.generation hist p = some l :=
          findLineageFuel_mono _ _ hist p l (by omega) hl
        simp [hf, hl']

/-- C5 amended, evaluated: a concrete generation-monotone four-entry history
satisfies the hypotheses, and the walk from its youngest member returns
within `generation + 1` visits. -/
theorem findLineage_terminates_witness :
    (∀ x ∈ histW, ∀ p ∈ histW, x.parent = some p.id →
      p.generation < x.generation) ∧
    (findLineageFuel (cW.generation + 1) histW cW).isSome :=
  ⟨by decide, findLineage_terminates histW cW (by decide) (by decide)⟩

/-- Walk step: an individual whose parent is not resolvable in the history
is treated as the root of the returned chain. -/
lemma findLineageFuel_stop (hist : List Biomorph) (x : Biomorph) (f : Nat)
    (hroot : x.parent = none ∨ ∃ pid, x.parent = some pid ∧
      hist.find? (fun y => y.id == pid) = none) :
    findLineageFuel (f + 1) hist x = some [x] := by
  rcases hroot with hp | ⟨pid, hp, hf⟩
  · simp only [findLineageFuel_succ, hp]
  · simp only [findLineageFuel_succ, hp, hf]

/-- Walk step: a resolvable parent prepends its own lineage. -/
lemma findLineageFuel_step (hist : List Biomorph) (x p : Biomorph) (f : Nat)
    (l : List Biomorph) (hx : x.parent = some p.id)
    (hf : hist.find? (fun y => y.id == p.id) = some p)
    (hp : findLineageFuel f hist p = some l) :
    findLineageFuel (f + 1) hist x = some (l ++ [x]) := by
  simp only [findLineageFuel_succ, hx, hf, hp]
  rfl

/-- C6: for a chain root→a→b→c whose links resolve in the history,
`findLineage(c)` returns `[root, a, b, c]` in order; with the root evicted
from the history it returns the longest reconstructible suffix `[a, b, c]`,
with no failure. -/
theorem findLineage_chain (hist : List Biomorph) (root a b c : Biomorph)
    (ha : a.parent = some root.id) (hb : b.parent = some a.id)
    (hc : c.parent = some b.id)
    (fa : hist.find? (fun x => x.id == a.id) = some a)
    (fb : hist.find? (fun x => x.id == b.id) = some b) :
    (root.parent = none →
      hist.find? (fun x => x.id == root.id) = some root →
      ∀ fuel, 4 ≤ fuel →
        findLineageFuel fuel hist c = some [root, a, b, c]) ∧
    (hist.find? (fun x => x.id == root.id) = none →
      ∀ fuel, 3 ≤ fuel → findLineageFuel fuel hist c = some [a, b, c]) := by
  constructor
  · intro hroot froot fuel hfuel
    have h1 : findLineageFuel 1 hist root = some [root] :=
      findLineageFuel_stop hist root 0 (Or.inl hroot)
    have h2 : findLineageFuel 2 hist a = some [root, a] := by
      simpa using findLineageFuel_step hist a root 1 [root] ha froot h1
    have h3 : findLineageFuel 3 hist b = some [root, a, b] := by
      simpa using findLineageFuel_step hist b a 2 [root, a] hb fa h2
    have h4 : findLineageFuel 4 hist c = some [root, a, b, c] := by
      simpa using findLineageFuel_step hist c b 3 [root, a, b] hc fb h3
    exact findLineageFuel_mono 4 fuel hist c _ hfuel h4
  · intro froot fuel hfuel
    have h1 : findLineageFuel 1 hist a = some [a] :=
      findLineageFuel_stop hist a 0 (Or.inr ⟨root.id, ha, froot⟩)
    have h2 : findLineageFuel 2 hist b = some [a, b] := by
      simpa using findLineageFuel_step hist b a 1 [a] hb fa h1
    have h3 : findLineageFuel 3 hist c = some [a, b, c] := by
      simpa using findLineageFuel_step hist c b 2 [a, b] hc fb h2
    exact findLineageFuel_mono 3 fuel hist c _ hfuel h3

/-- C6, evaluated: on the concrete retained chain the walk returns the full
chain, and on the history with the root evicted it returns the suffix. -/
theorem findLineage_chain_witness :
    findLineageFuel 4 histW cW = some [rootW, aW, bW, cW] ∧
    findLineageFuel 3 histPartial cW = some [aW, bW, cW] :=
  ⟨(findLineage_chain histW rootW aW bW cW rfl rfl rfl rfl rfl).1 rfl rfl 4
      (by norm_num),
    (findLineage_chain histPartial rootW aW bW cW rfl rfl rfl rfl rfl).2 rfl 3
      (by norm_num)⟩

/-- The `"balanced"` branch of the fitness switch. -/
lemma calculateFitness_balanced (genes : List Int) :
    calculateFitness genes "balanced" =
      max 0
        (|((genes.getD 3 0 : Int) : Rat)| +
          |((genes.getD 1 0 : Int) : Rat)| / 2 +
          (10 - |((genes.getD 5 0 : Int) : Rat)|) +
          |((genes.getD 8 0 : Int) : Rat)| / 2) := by
  simp [calculateFitness]

/-- The reduced variant's fitness is exactly the balanced policy. -/
lemma calculateFitnessReduced_eq (genes : List Int) :
    calculateFitnessReduced genes = calculateFitness genes "balanced" := by
  rw [calculateFitness_balanced]
  rfl

/-- The balanced fitness only reads genes 1, 3, 5 and 8, so the `+1`
mutation of gene 0 preserves it. -/
lemma calculateFitness_balanced_mutUp0 (genes : List Int) :
    calculateFitness (mutUp genes 0) "balanced" =
      calculateFitness genes "balanced" := by
  rw [calculateFitness_balanced, calculateFitness_balanced]
  unfold mutUp
  split
  · rw [getD_set_ne genes 0 3 _ (by omega), getD_set_ne genes 0 1 _ (by omega),
      getD_set_ne genes 0 5 _ (by omega), getD_set_ne genes 0 8 _ (by omega)]
  · rfl

/-- A list whose `head?` is known has that head as its `headI`. -/
lemma headI_of_head? {α : Type} [Inhabited α] {l : List α} {a : α}
    (h : l.head? = some a) : l.headI = a := by
  cases l with
  | nil => simp at h
  | cons x t => simp at h; simp [h]

/-- Head of the stable descending-fitness sort: it is the element at the
first index attaining the maximal fitness of the list — maximal, and
strictly above every earlier element. -/
lemma sortFitDesc_head_firstMax :
    ∀ l : List Biomorph, l ≠ [] →
      ∃ i, i < l.length ∧
        (sortFitDesc l).head? = some (l.getD i default) ∧
        (∀ j, j < l.length →
          fitnessVal (l.getD j default) ≤ fitnessVal (l.getD i default)) ∧
        (∀ j, j < i →
          fitnessVal (l.getD j default) < fitnessVal (l.getD i default)) := by
  intro l
  induction l with
  | nil => intro h; exact absurd rfl h
  | cons x xs ih =>
    intro _
    cases xs with
    | nil =>
      refine ⟨0, by simp, by simp [sortFitDesc], ?_, by omega⟩
      intro j hj
      simp only [List.length_singleton, Nat.lt_one_iff] at hj
      subst hj
      simp
    | cons y ys =>
      obtain ⟨i', hi', hh', hmax', hfirst'⟩ := ih (by simp)
      have hcons : sortFitDesc (x :: y :: ys) =
          (sortFitDesc (y :: ys)).orderedInsert fitGE x := rfl
      cases hs : sortFitDesc (y :: ys) with
      | nil => rw [hs] at hh'; simp at hh'
      | cons m t =>
        have hm : m = (y :: ys).getD i' default := by
          rw [hs] at hh'
          simpa using hh'
        by_cases hxm : fitnessVal m ≤ fitnessVal x
        · refine ⟨0, by simp, ?_, ?_, by omega⟩
          · rw [hcons, hs, List.orderedInsert, if_pos (show fitGE x m from hxm)]
            rfl
          · intro j hj
            cases j with
            | zero => simp
            | succ j' =>
              rw [List.getD_cons_succ, List.getD_cons_zero]
              refine le_trans ?_ hxm
              rw [hm]
              exact hmax' j' (by simpa using hj)
        · have hxlt : fitnessVal x < fitnessVal m := not_le.mp hxm
          refine ⟨i' + 1, by simpa using hi', ?_, ?_, ?_⟩
          · rw [hcons, hs, List.orderedInsert, if_neg (show ¬ fitGE x m from hxm)]
            rw [List.getD_cons_succ, ← hm]
            rfl
          · intro j hj
            cases j with
            | zero =>
              rw [List.getD_cons_zero, List.getD_cons_succ, ← hm]
              exact le_of_lt hxlt
            | succ j' =>
              rw [List.getD_cons_succ, List.getD_cons_succ]
              exact hmax' j' (by simpa using hj)
          · intro j hj
            cases j with
            | zero =>
              rw [List.getD_cons_zero, List.getD_cons_succ, ← hm]
              exact hxlt
            | succ j' =>
              rw [List.getD_cons_succ, List.getD_cons_succ]
              exact hfirst' j' (by omega)

/-- Every member's fitness is at most the fitness of the sorted head. -/
lemma sortFitDesc_headI_max (l : List Biomorph) (x : Biomorph) (hx : x ∈ l) :
    fitnessVal x ≤ fitnessVal (sortFitDesc l).headI := by
  obtain ⟨i, hi, hh, hmax, _⟩ := sortFitDesc_head_firstMax l (List.ne_nil_of_mem hx)
  obtain ⟨n, hn, hxn⟩ := List.getElem_of_mem hx
  rw [headI_of_head? hh]
  have := hmax n hn
  rwa [List.getD_eq_getElem l default hn, hxn] at this

/-- The sorted head of a nonempty list is a member of the list. -/
lemma sortFitDesc_headI_mem (l : List Biomorph) (hl : l ≠ []) :
    (sortFitDesc l).headI ∈ l := by
  obtain ⟨i, hi, hh, _, _⟩ := sortFitDesc_head_firstMax l hl
  rw [headI_of_head? hh, List.getD_eq_getElem l default hi]
  exact List.getElem_mem hi

/-- The full offspring batch is nonempty. -/
lemma createOffspring_ne_nil (policy : String) (ids : Nat → Nat) (now : Nat)
    (parent : Biomorph) : createOffspring policy ids now parent ≠ [] := by
  intro h
  have := congrArg List.length h
  have hr : List.range 9 = [0, 1, 2, 3, 4, 5, 6, 7, 8] := rfl
  simp [createOffspring, hr] at this

/-- The reduced offspring batch is nonempty. -/
lemma createOffspringReduced_ne_nil (ids : Nat → Nat) (parent : Biomorph) :
    createOffspringReduced ids parent ≠ [] := by
  intro h
  have := congrArg List.length h
  simp [createOffspringReduced] at this

/-- Every full-mode offspring carries a freshly computed fitness for its own
genes under the active policy. -/
lemma createOffspring_fitness (policy : String) (ids : Nat → Nat) (now : Nat)
    (parent : Biomorph) :
    ∀ c ∈ createOffspring policy ids now parent,
      c.fitness = some (calculateFitness c.genes policy) := by
  intro c hc
  simp only [createOffspring, List.mem_flatMap, List.mem_cons,
    List.not_mem_nil, or_false] at hc
  obtain ⟨k, _, hck⟩ := hc
  rcases hck with h | h <;> subst h <;> rfl

/-- Every reduced-mode offspring carries a freshly computed fitness for its
own genes. -/
lemma createOffspringReduced_fitness (ids : Nat → Nat) (parent : Biomorph) :
    ∀ c ∈ createOffspringReduced ids parent,
      c.fitness = some (calculateFitnessReduced c.genes) := by
  intro c hc
  simp only [createOffspringReduced, List.mem_flatMap, List.mem_cons,
    List.not_mem_nil, or_false] at hc
  obtain ⟨k, _, hck⟩ := hc
  rcases hck with h | h <;> subst h <;> rfl

/-- One full-mode auto-evolution step under the balanced policy never
decreases the selected fitness, and preserves the cached-fitness
invariant. -/
lemma stepFull_mono (ids : Nat → Nat) (now : Nat) (cur : Biomorph)
    (hinv : cur.fitness = some (calculateFitness cur.genes "balanced")) :
    fitnessVal cur ≤ fitnessVal (stepFull ids now cur) ∧
    (stepFull ids now cur).fitness =
      some (calculateFitness (stepFull ids now cur).genes "balanced") := by
  have hne := createOffspring_ne_nil "balanced" ids now cur
  have hmem0 : upChild0 "balanced" ids now cur ∈
      createOffspring "balanced" ids now cur := by
    simp only [createOffspring, List.mem_flatMap]
    exact ⟨0, by decide, by simp [upChild0]⟩
  constructor
  · have hle := sortFitDesc_headI_max _ _ hmem0
    have h0 : fitnessVal (upChild0 "balanced" ids now cur) = fitnessVal cur := by
      simp [upChild0, fitnessVal, hinv, calculateFitness_balanced_mutUp0]
    rw [h0] at hle
    exact hle
  · have hm := sortFitDesc_headI_mem _ hne
    exact createOffspring_fitness "balanced" ids now cur _ hm

/-- One reduced-mode auto-evolution step never decreases the selected
fitness, and preserves the cached-fitness invariant. -/
lemma stepReduced_mono (ids : Nat → Nat) (cur : Biomorph)
    (hinv : cur.fitness = some (calculateFitnessReduced cur.genes)) :
    fitnessVal cur ≤ fitnessVal (stepReduced ids cur) ∧
    (stepReduced ids cur).fitness =
      some (calculateFitnessReduced (stepReduced ids cur).genes) := by
  have hne := createOffspringReduced_ne_nil ids cur
  have hmem0 : upChild0R ids cur ∈ createOffspringReduced ids cur := by
    simp only [createOffspringReduced, List.mem_flatMap]
    exact ⟨0, by simp, by simp [upChild0R]⟩
  constructor
  · have hle := sortFitDesc_headI_max _ _ hmem0
    have h0 : fitnessVal (upChild0R ids cur) = fitnessVal cur := by
      simp [upChild0R, fitnessVal, hinv, calculateFitnessReduced_eq,
        calculateFitness_balanced_mutUp0]
    rw [h0] at hle
    exact hle
  · have hm := sortFitDesc_headI_mem _ hne
    exact createOffspringReduced_fitness ids cur _ hm

/-- C3: under the balanced policy, starting from any individual whose cached
fitness was computed under that policy, the fitness of the selected
individual is non-decreasing across consecutive auto-evolution steps, both
with the full 18-offspring batch and with the reduced 4-gene batch. -/
theorem autoEvolution_monotone (idsSeq : Nat → Nat → Nat) (nowSeq : Nat → Nat)
    (start : Biomorph)
    (hfit : start.fitness = some (calculateFitness start.genes "balanced")) :
    (∀ n, fitnessVal (evolveFull idsSeq nowSeq start n) ≤
      fitnessVal (evolveFull idsSeq nowSeq start (n + 1))) ∧
    (∀ n, fitnessVal (evolveReduced idsSeq start n) ≤
      fitnessVal (evolveReduced idsSeq start (n + 1))) := by
  constructor
  · have inv : ∀ n, (evolveFull idsSeq nowSeq start n).fitness =
        some (calculateFitness (evolveFull idsSeq nowSeq start n).genes
          "balanced") := by
      intro n
      induction n with
      | zero => exact hfit
      | succ n ihn => exact (stepFull_mono (idsSeq n) (nowSeq n) _ ihn).2
    exact fun n => (stepFull_mono (idsSeq n) (nowSeq n) _ (inv n)).1
  · have inv : ∀ n, (evolveReduced idsSeq start n).fitness =
        some (calculateFitnessReduced (evolveReduced idsSeq start n).genes) := by
      intro n
      induction n with
      | zero => rw [calculateFitnessReduced_eq]; exact hfit
      | succ n ihn => exact (stepReduced_mono (idsSeq n) _ ihn).2
    exact fun n => (stepReduced_mono (idsSeq n) _ (inv n)).1

/-- C3, evaluated: the all-zero starting individual satisfies the
cached-fitness hypothesis and its first full-mode step does not decrease
fitness. -/
theorem autoEvolution_monotone_witness :
    startW.fitness = some (calculateFitness startW.genes "balanced") ∧
    fitnessVal (evolveFull idsSeqZero nowSeqZero startW 0) ≤
      fitnessVal (evolveFull idsSeqZero nowSeqZero startW 1) :=
  ⟨rfl, (autoEvolution_monotone idsSeqZero nowSeqZero startW rfl).1 0⟩

/-- C4: in each auto-evolution step (both batch shapes), the chosen
individual — the head of the stable descending sort of the offspring batch —
sits at an index of the batch whose fitness is maximal, and every
earlier-generated offspring has strictly smaller fitness, so ties are broken
in favour of the earliest offspring in the deterministic sequence. -/
theorem selection_first_max (policy : String) (ids : Nat → Nat) (now : Nat)
    (parent : Biomorph) :
    (∃ i, i < (createOffspring policy ids now parent).length ∧
      (sortFitDesc (createOffspring policy ids now parent)).head? =
        some ((createOffspring policy ids now parent).getD i default) ∧
      (∀ j, j < (createOffspring policy ids now parent).length →
        fitnessVal ((createOffspring policy ids now parent).getD j default) ≤
        fitnessVal ((createOffspring policy ids now parent).getD i default)) ∧
      (∀ j, j < i →
        fitnessVal ((createOffspring policy ids now parent).getD j default) <
        fitnessVal ((createOffspring policy ids now parent).getD i default))) ∧
    (∃ i, i < (createOffspringReduced ids parent).length ∧
      (sortFitDesc (createOffspringReduced ids parent)).head? =
        some ((createOffspringReduced ids parent).getD i default) ∧
      (∀ j, j < (createOffspringReduced ids parent).length →
        fitnessVal ((createOffspringReduced ids parent).getD j default) ≤
        fitnessVal ((createOffspringReduced ids parent).getD i default)) ∧
      (∀ j, j < i →
        fitnessVal ((createOffspringReduced ids parent).getD j default) <
        fitnessVal ((createOffspringReduced ids parent).getD i default))) :=
  ⟨sortFitDesc_head_firstMax _ (createOffspring_ne_nil policy ids now parent),
    sortFitDesc_head_firstMax _ (createOffspringReduced_ne_nil ids parent)⟩

/-- Measure of a singleton queue entry prepended. -/
lemma measureQ_cons (it : BranchItem) (q : List BranchItem) :
    measureQ (it :: q) = 5 ^ it.depth + measureQ q := by
  simp [measureQ]

/-- Measure distributes over queue concatenation. -/
lemma measureQ_append (a b : List BranchItem) :
    measureQ (a ++ b) = measureQ a + measureQ b := by
  simp [measureQ]

/-- A queue of measure zero is empty. -/
lemma measureQ_eq_zero {q : List BranchItem} (h : measureQ q = 0) :
    q = [] := by
  cases q with
  | nil => rfl
  | cons it rest =>
    exfalso
    rw [measureQ_cons] at h
    have h5 : 0 < 5 ^ it.depth := Nat.pow_pos (by norm_num)
    omega

/-- At most 4 children per branch. -/
lemma actualSplits_le (P : DrawingParams) : actualSplits P ≤ 4 := by
  refine Int.toNat_le.mpr ?_
  have h1 : min P.splits 4 ≤ 4 := min_le_right _ _
  have h2 : max 2 (min P.splits 4) ≤ 4 := max_le (by norm_num) h1
  exact_mod_cast h2

/-- Every child of a branch has the decremented depth. -/
lemma childItems_depth (cosD sinD : Rat → Rat) (P : DrawingParams)
    (it : BranchItem) :
    ∀ c ∈ childItems cosD sinD P it, c.depth = it.depth - 1 := by
  intro c hc
  simp only [childItems, List.mem_map] at hc
  obtain ⟨i, _, rfl⟩ := hc
  rfl

/-- Measure of the spawned children. -/
lemma measureQ_childItems (cosD sinD : Rat → Rat) (P : DrawingParams)
    (it : BranchItem) :
    measureQ (childItems cosD sinD P it) =
      actualSplits P * 5 ^ (it.depth - 1) := by
  simp [measureQ, childItems, List.map_map, Function.comp_def,
    List.map_const', List.sum_const_nat]

/-- The children of a positive-depth branch weigh strictly less than the
branch itself. -/
lemma measureQ_childItems_lt (cosD sinD : Rat → Rat) (P : DrawingParams)
    (it : BranchItem) (h : it.depth ≠ 0) :
    measureQ (childItems cosD sinD P it) < 5 ^ it.depth := by
  rw [measureQ_childItems]
  have hle : actualSplits P * 5 ^ (it.depth - 1) ≤ 4 * 5 ^ (it.depth - 1) :=
    Nat.mul_le_mul_right _ (actualSplits_le P)
  have hpos : 0 < 5 ^ (it.depth - 1) := Nat.pow_pos (by norm_num)
  have hlt : 4 * 5 ^ (it.depth - 1) < 5 * 5 ^ (it.depth - 1) := by
    exact Nat.mul_lt_mul_of_lt_of_le (by norm_num) (le_refl _) hpos
  have hsucc : 5 * 5 ^ (it.depth - 1) = 5 ^ it.depth := by
    rw [mul_comm, ← pow_succ]
    congr 1
    omega
  omega

/-- The queue loop yields the same result under any sufficient fuel. -/
lemma processQueueN_congr (cosD sinD : Rat → Rat) (P : DrawingParams) :
    ∀ n m q, measureQ q ≤ n → measureQ q ≤ m →
      processQueueN cosD sinD P n q = processQueueN cosD sinD P m q := by
  intro n
  induction n with
  | zero =>
    intro m q hn _
    have hq : q = [] := measureQ_eq_zero (by omega)
    subst hq
    cases m <;> rfl
  | succ n ih =>
    intro m q hn hm
    cases q with
    | nil => cases m <;> rfl
    | cons it rest =>
      have hpos : 0 < 5 ^ it.depth := Nat.pow_pos (by norm_num)
      have hc : measureQ (it :: rest) = 5 ^ it.depth + measureQ rest :=
        measureQ_cons it rest
      obtain ⟨m', rfl⟩ : ∃ m', m = m' + 1 := ⟨m - 1, by omega⟩
      simp only [processQueueN]
      split
      · next hdep =>
        apply ih
        · have h1 : (5 : Nat) ^ it.depth = 1 := by rw [hdep, pow_zero]
          omega
        · have h1 : (5 : Nat) ^ it.depth = 1 := by rw [hdep, pow_zero]
          omega
      · next hdep =>
        congr 1
        have hlt := measureQ_childItems_lt cosD sinD P it hdep
        apply ih
        · rw [measureQ_append]
          omega
        · rw [measureQ_append]
          omega

/-- The empty queue yields no segments. -/
lemma processQueue_nil (cosD sinD : Rat → Rat) (P : DrawingParams) :
    processQueue cosD sinD P [] = [] := rfl

/-- One iteration of the queue loop: pop, skip at depth 0, otherwise emit
the segment and enqueue the children. -/
lemma processQueue_cons (cosD sinD : Rat → Rat) (P : DrawingParams)
    (it : BranchItem) (rest : List BranchItem) :
    processQueue cosD sinD P (it :: rest) =
      if it.depth = 0 then processQueue cosD sinD P rest
      else branchSegment cosD sinD P it ::
        processQueue cosD sinD P (rest ++ childItems cosD sinD P it) := by
  unfold processQueue
  have hpos : 0 < 5 ^ it.depth := Nat.pow_pos (by norm_num)
  have hc : measureQ (it :: rest) = 5 ^ it.depth + measureQ rest :=
    measureQ_cons it rest
  obtain ⟨n, hn⟩ : ∃ n, measureQ (it :: rest) = n + 1 :=
    ⟨measureQ (it :: rest) - 1, by omega⟩
  rw [hn]
  simp only [processQueueN]
  split
  · next hdep =>
    apply processQueueN_congr
    · have h1 : (5 : Nat) ^ it.depth = 1 := by rw [hdep, pow_zero]
      omega
    · exact le_refl _
  · next hdep =>
    congr 1
    have hlt := measureQ_childItems_lt cosD sinD P it hdep
    apply processQueueN_congr
    · rw [measureQ_append]
      omega
    · exact le_refl _

/-- Evaluating `drawBranch` at an exhausted branch emits nothing. -/
lemma recWalk_zero (cosD sinD : Rat → Rat) (P : DrawingParams)
    (it : BranchItem) (h : it.depth = 0) : recWalk cosD sinD P it = [] := by
  unfold recWalk
  rw [h]
  rfl

/-- Evaluating `drawBranch` at a live branch emits its segment and recurses into its
children. -/
lemma recWalk_succ (cosD sinD : Rat → Rat) (P : DrawingParams)
    (it : BranchItem) (h : it.depth ≠ 0) :
    recWalk cosD sinD P it = branchSegment cosD sinD P it ::
      (childItems cosD sinD P it).flatMap (recWalk cosD sinD P) := by
  unfold recWalk
  obtain ⟨d, hd⟩ : ∃ d, it.depth = d + 1 := ⟨it.depth - 1, by omega⟩
  rw [hd]
  simp only [recWalkAux]
  congr 1
  rw [List.flatMap_def, List.flatMap_def]
  congr 1
  apply List.map_congr_left
  intro c hc
  have hcd := childItems_depth cosD sinD P it c hc
  rw [hcd, hd]
  exact rfl

/-- The queue walk is a permutation of the combined recursive walks of the
queue entries. -/
lemma processQueue_perm (cosD sinD : Rat → Rat) (P : DrawingParams) :
    ∀ n q, measureQ q ≤ n →
      List.Perm (processQueue cosD sinD P q)
        (q.flatMap (recWalk cosD sinD P)) := by
  intro n
  induction n with
  | zero =>
    intro q h
    have hq : q = [] := measureQ_eq_zero (by omega)
    subst hq
    exact List.Perm.refl _
  | succ n ih =>
    intro q hq
    cases q with
    | nil => exact List.Perm.refl _
    | cons it rest =>
      have hc : measureQ (it :: rest) = 5 ^ it.depth + measureQ rest :=
        measureQ_cons it rest
      have hpos : 0 < 5 ^ it.depth := Nat.pow_pos (by norm_num)
      rw [processQueue_cons, List.flatMap_cons]
      by_cases hdep : it.depth = 0
      · rw [if_pos hdep, recWalk_zero cosD sinD P it hdep, List.nil_append]
        apply ih
        have h1 : (5 : Nat) ^ it.depth = 1 := by rw [hdep, pow_zero]
        omega
      · rw [if_neg hdep, recWalk_succ cosD sinD P it hdep, List.cons_append]
        have hlt := measureQ_childItems_lt cosD sinD P it hdep
        have hperm := ih (rest ++ childItems cosD sinD P it)
          (by rw [measureQ_append]; omega)
        refine List.Perm.cons _ (hperm.trans ?_)
        rw [List.flatMap_append]
        exact List.perm_append_comm

/-- C2: for every genotype, the iterative queue-based walk
(`drawOptimizedBiomorph`) and the recursive walk (`drawBranch`) produce the
same branch segments — equal segment counts and equal multisets of segments
(each segment taken with its start point, end point, depth, color
components, and width) — for every abstract degree-cosine/sine pair. -/
theorem walks_equivalent (cosD sinD : Rat → Rat) (genes : List Int)
    (startX startY : Rat) :
    (drawOptimizedSegs cosD sinD (computeDrawingParams genes)
        startX startY).length =
      (drawBranchSegs cosD sinD (computeDrawingParams genes)
        startX startY).length ∧
    ((drawOptimizedSegs cosD sinD (computeDrawingParams genes)
        startX startY : List Segment) : Multiset Segment) =
      ((drawBranchSegs cosD sinD (computeDrawingParams genes)
        startX startY : List Segment) : Multiset Segment) := by
  have hperm : List.Perm
      (drawOptimizedSegs cosD sinD (computeDrawingParams genes) startX startY)
      (drawBranchSegs cosD sinD (computeDrawingParams genes) startX startY) := by
    unfold drawOptimizedSegs drawBranchSegs
    have h1 := List.perm_insertionSort segLE
      (processQueue cosD sinD (computeDrawingParams genes)
        [⟨startX, startY, -90, (computeDrawingParams genes).length,
          (computeDrawingParams genes).depth.toNat⟩])
    have h2 := processQueue_perm cosD sinD (computeDrawingParams genes)
      (measureQ [⟨startX, startY, -90, (computeDrawingParams genes).length,
        (computeDrawingParams genes).depth.toNat⟩])
      [⟨startX, startY, -90, (computeDrawingParams genes).length,
        (computeDrawingParams genes).depth.toNat⟩] (le_refl _)
    refine h1.trans (h2.trans ?_)
    simp
  exact ⟨hperm.length_eq, Multiset.coe_eq_coe.mpr hperm⟩

/-- C7 amended: the drawing order of the iterative walk is sorted by the
remaining-depth field ascending — deeper (thinner, later-generated) segments
draw first, the shallow thick ones last. -/
theorem optimized_draw_order_sorted (cosD sinD : Rat → Rat)
    (genes : List Int) (startX startY : Rat) :
    List.Sorted segLE
      (drawOptimizedSegs cosD sinD (computeDrawingParams genes)
        startX startY) :=
  List.sorted_insertionSort segLE _

/-- The parameter mapping of the small concrete genotype, evaluated. -/
lemma computeDrawingParams_genesSmall :
    computeDrawingParams genesSmall = PSmall := by
  simp only [computeDrawingParams, genesSmall, PSmall, mapValue]
  norm_num

/-- C7 counterexample: on the concrete genotype `genesSmall` the drawing
order of the iterative walk is not sorted with shallower segments (larger
remaining depth) first — the trunk (the largest remaining depth, generated
first) is drawn last, after the deeper segments. -/
theorem optimized_draw_order_not_shallow_first :
    ¬ List.Sorted (fun s t : Segment => t.depth ≤ s.depth)
      (drawOptimizedSegs cosOne sinZero (computeDrawingParams genesSmall)
        100 190) := by
  rw [computeDrawingParams_genesSmall]
  decide

end EvolViz
